import Mathlib

set_option maxHeartbeats 1000000

/- Shallow embedding of the order intake workflow of the bakery storefront
in src/api/src/App.tsx: cart updates, total computation, date and slot
selection, phone validation, order submission, the confirmation message
item lines, and the admin side parsing of an order items text. JS objects
keyed by product id are modelled as insertion ordered association lists,
JS numbers holding money as rationals, and quantities as integers. -/

/-- Product record, as served by the catalog store (App.tsx lines 20-26). -/
structure Product where
  id : String
  name : String
  price : ℚ
  description : Option String := none
  image : Option String := none
deriving DecidableEq

/-- Payment method tag of an order draft (App.tsx line 112). -/
inductive Payment
  | zelle
  | cash
deriving DecidableEq

/-- The page state of the workflow (App.tsx line 47). -/
inductive Page
  | schedule
  | order
  | success
  | admin
deriving DecidableEq

/-- Availability status stored per ISO date key (App.tsx lines 16-18). -/
inductive Avail
  | available
  | sold_out
deriving DecidableEq

/-! ### JS object semantics for the cart

`selectedItems` is a plain JS object keyed by product id.  We model it as
an association list in insertion order: property read, property write
(which keeps the position of an existing key and appends a fresh key at
the end, as JS objects do for string keys) and property deletion. -/

/-- Property read obj[k], none when the key is absent. -/
def getKey : List (String × Int) → String → Option Int
  | [], _ => none
  | (k, v) :: t, q => if k = q then some v else getKey t q

/-- Property write obj[k] = v: replaces the first occurrence in place,
appends at the end when the key is absent. -/
def setKey : List (String × Int) → String → Int → List (String × Int)
  | [], q, v => [(q, v)]
  | (k, w) :: t, q, v => if k = q then (q, v) :: t else (k, w) :: setKey t q v

/-- Property deletion delete obj[k]: removes the first occurrence. -/
def delKey : List (String × Int) → String → List (String × Int)
  | [], _ => []
  | (k, w) :: t, q => if k = q then t else (k, w) :: delKey t q

/-- The key list of an association list, in order. -/
def keysOf (m : List (String × Int)) : List String := m.map Prod.fst

theorem getKey_setKey_self (m : List (String × Int)) (q : String) (v : Int) :
    getKey (setKey m q v) q = some v := by
  induction m with
  | nil => simp [setKey, getKey]
  | cons e t ih =>
    obtain ⟨k, w⟩ := e
    by_cases h : k = q
    · simp [setKey, h, getKey]
    · simp [setKey, h, getKey, ih]

theorem mem_setKey (m : List (String × Int)) (q : String) (v : Int)
    (e : String × Int) : e ∈ setKey m q v → e = (q, v) ∨ e ∈ m := by
  induction m with
  | nil =>
    intro h
    simpa [setKey] using h
  | cons f t ih =>
    intro h
    obtain ⟨k, w⟩ := f
    by_cases hk : k = q
    · simp only [setKey, if_pos hk, List.mem_cons] at h
      rcases h with h | h
      · exact Or.inl h
      · exact Or.inr (List.mem_cons_of_mem _ h)
    · simp only [setKey, if_neg hk, List.mem_cons] at h
      rcases h with h | h
      · exact Or.inr (by simp [h])
      · rcases ih h with h | h
        · exact Or.inl h
        · exact Or.inr (List.mem_cons_of_mem _ h)

theorem delKey_sublist (m : List (String × Int)) (q : String) :
    (delKey m q).Sublist m := by
  induction m with
  | nil => simp [delKey]
  | cons f t ih =>
    obtain ⟨k, w⟩ := f
    by_cases hk : k = q
    · simp only [delKey, if_pos hk]
      exact (List.sublist_cons_self _ _)
    · simp only [delKey, if_neg hk]
      exact ih.cons₂ _

theorem mem_delKey (m : List (String × Int)) (q : String)
    (e : String × Int) (h : e ∈ delKey m q) : e ∈ m :=
  (delKey_sublist m q).subset h

theorem keysOf_setKey (m : List (String × Int)) (q : String) (v : Int) :
    keysOf (setKey m q v) =
      if q ∈ keysOf m then keysOf m else keysOf m ++ [q] := by
  induction m with
  | nil => simp [setKey, keysOf]
  | cons f t ih =>
    obtain ⟨k, w⟩ := f
    by_cases hk : k = q
    · simp [setKey, hk, keysOf]
    · have hne : ¬ q = k := fun h => hk h.symm
      simp only [setKey, if_neg hk, keysOf, List.map_cons] at ih ⊢
      rw [ih]
      by_cases hq : q ∈ t.map Prod.fst
      · simp [hq, hne]
      · simp [hq, hne]

theorem getKey_eq_none_of_not_mem (m : List (String × Int)) (q : String)
    (h : q ∉ keysOf m) : getKey m q = none := by
  induction m with
  | nil => simp [getKey]
  | cons f t ih =>
    obtain ⟨k, w⟩ := f
    simp only [keysOf, List.map_cons, List.mem_cons, not_or] at h
    have hk : ¬ k = q := fun hkq => h.1 (hkq.symm)
    simp [getKey, hk, ih (by simpa [keysOf] using h.2)]

theorem getKey_mem (m : List (String × Int)) (q : String) (v : Int) :
    getKey m q = some v → (q, v) ∈ m := by
  induction m with
  | nil =>
    intro h
    simp [getKey] at h
  | cons f t ih =>
    intro h
    obtain ⟨k, w⟩ := f
    by_cases hk : k = q
    · simp only [getKey, if_pos hk] at h
      obtain rfl : w = v := by injection h
      subst hk
      exact List.mem_cons_self _ _
    · simp only [getKey, if_neg hk] at h
      exact List.mem_cons_of_mem _ (ih h)

theorem getKey_delKey_self (m : List (String × Int)) (q : String)
    (h : (keysOf m).Nodup) : getKey (delKey m q) q = none := by
  induction m with
  | nil => simp [delKey, getKey]
  | cons f t ih =>
    obtain ⟨k, w⟩ := f
    simp only [keysOf, List.map_cons, List.nodup_cons] at h
    by_cases hk : k = q
    · simp only [delKey, if_pos hk]
      apply getKey_eq_none_of_not_mem
      simpa [keysOf, hk] using h.1
    · simp [delKey, if_neg hk, getKey, hk, ih h.2]

theorem delKey_of_not_mem (m : List (String × Int)) (q : String)
    (h : getKey m q = none) : delKey m q = m := by
  induction m with
  | nil => simp [delKey]
  | cons f t ih =>
    obtain ⟨k, w⟩ := f
    by_cases hk : k = q
    · simp [getKey, hk] at h
    · simp only [getKey, if_neg hk] at h
      simp [delKey, hk, ih h]

/-! ### Cart updates (updateItemQuantity, App.tsx lines 235-246) -/

/-- updateItemQuantity: the new quantity is the current one (0 for an
absent key) plus delta; a new quantity of zero or below deletes the key,
otherwise the key is written with the new quantity. -/
def updateItemQuantity (items : List (String × Int)) (id : String)
    (delta : Int) : List (String × Int) :=
  let newQty := (getKey items id).getD 0 + delta
  if newQty ≤ 0 then delKey items id else setKey items id newQty

/-- A sequence of updateItemQuantity calls applied to the initially empty
cart; each operation carries the product id and the delta. -/
def applyOps (ops : List (String × Int)) : List (String × Int) :=
  ops.foldl (fun c op => updateItemQuantity c op.1 op.2) []

/-- The cart invariant: every stored quantity is positive and the key list
has no duplicates. -/
def CartInv (m : List (String × Int)) : Prop :=
  (∀ e ∈ m, 0 < e.2) ∧ (keysOf m).Nodup

theorem cartInv_nil : CartInv [] := by
  constructor
  · intro e he
    simp at he
  · simp [keysOf]

theorem cartInv_updateItemQuantity (m : List (String × Int)) (id : String)
    (delta : Int) (h : CartInv m) :
    CartInv (updateItemQuantity m id delta) := by
  simp only [updateItemQuantity]
  by_cases hq : (getKey m id).getD 0 + delta ≤ 0
  · rw [if_pos hq]
    constructor
    · intro e he
      exact h.1 e (mem_delKey m id e he)
    · exact h.2.sublist ((delKey_sublist m id).map Prod.fst)
  · rw [if_neg hq]
    constructor
    · intro e he
      rcases mem_setKey m id _ e he with he' | he'
      · rw [he']
        simp only []
        omega
      · exact h.1 e he'
    · rw [keysOf_setKey]
      by_cases hm : id ∈ keysOf m
      · simpa [hm] using h.2
      · rw [if_neg hm]
        exact List.Nodup.append h.2 (by simp) (by simpa using hm)

theorem cartInv_applyOps (ops : List (String × Int)) :
    CartInv (applyOps ops) := by
  have key : ∀ (l : List (String × Int)) (acc : List (String × Int)),
      CartInv acc →
      CartInv (l.foldl (fun c op => updateItemQuantity c op.1 op.2) acc) := by
    intro l
    induction l with
    | nil => intro acc h; simpa using h
    | cons op t ih =>
      intro acc h
      exact ih _ (cartInv_updateItemQuantity acc op.1 op.2 h)
  exact key ops [] cartInv_nil

theorem applyOps_append_single (ops : List (String × Int))
    (id : String) (delta : Int) :
    applyOps (ops ++ [(id, delta)]) =
      updateItemQuantity (applyOps ops) id delta := by
  unfold applyOps
  rw [List.foldl_append]
  rfl

/-- C1: applying any sequence of increment and decrement operations
(updateItemQuantity with delta 1 or -1) to the initially empty cart never
stores a zero or negative quantity; an increment on an absent key inserts
it with quantity 1, an increment on a present key raises it by 1, and a
decrement that would bring the quantity to zero or below removes the key
entirely. -/
theorem c1_cart_invariant (ops : List (String × Int))
    (hdelta : ∀ op ∈ ops, op.2 = 1 ∨ op.2 = -1) :
    (∀ e ∈ applyOps ops, 0 < e.2)
    ∧ (∀ id, getKey (applyOps ops) id = none →
        getKey (applyOps (ops ++ [(id, 1)])) id = some 1)
    ∧ (∀ id q, getKey (applyOps ops) id = some q →
        getKey (applyOps (ops ++ [(id, 1)])) id = some (q + 1))
    ∧ (∀ id q, getKey (applyOps ops) id = some q → q - 1 ≤ 0 →
        getKey (applyOps (ops ++ [(id, -1)])) id = none) := by
  have hinv := cartInv_applyOps ops
  refine ⟨hinv.1, ?_, ?_, ?_⟩
  · intro id h
    rw [applyOps_append_single]
    unfold updateItemQuantity
    simp only [h, Option.getD_none, Int.zero_add]
    norm_num
    exact getKey_setKey_self _ id 1
  · intro id q h
    have hpos : 0 < q := hinv.1 (id, q) (getKey_mem _ id q h)
    rw [applyOps_append_single]
    unfold updateItemQuantity
    simp only [h, Option.getD_some]
    have : ¬ q + 1 ≤ 0 := by omega
    simp only [this, if_neg]
    exact getKey_setKey_self _ id (q + 1)
  · intro id q h hle
    rw [applyOps_append_single]
    unfold updateItemQuantity
    simp only [h, Option.getD_some]
    have : q + (-1) ≤ 0 := by omega
    simp only [this, if_pos]
    exact getKey_delKey_self _ id hinv.2

theorem c1_cart_invariant_witness :
    (∀ op ∈ ([("a", 1), ("a", 1), ("b", 1), ("a", -1)] : List (String × Int)),
        op.2 = 1 ∨ op.2 = -1)
    ∧ ∀ e ∈ applyOps [("a", 1), ("a", 1), ("b", 1), ("a", -1)], 0 < e.2 :=
  ⟨by decide, (c1_cart_invariant [("a", 1), ("a", 1), ("b", 1), ("a", -1)]
      (by decide)).1⟩

/-! ### The order draft (App.tsx lines 108-114) -/

/-- The transient order draft held by the workflow: contact fields, the
cart, the payment method and the chosen time slot. -/
structure OrderDraft where
  name : String
  phone : String
  selectedItems : List (String × Int)
  paymentMethod : Payment
  time : String
deriving DecidableEq

/-- The plus and minus buttons call updateItemQuantity through setOrderData,
which rebuilds the draft with a new selectedItems object and every other
field spread over unchanged (App.tsx lines 235-246). -/
def updateItemQuantityDraft (d : OrderDraft) (id : String)
    (delta : Int) : OrderDraft :=
  { d with selectedItems := updateItemQuantity d.selectedItems id delta }

/-- C10: decrementing a product id that is absent from the cart is a no-op:
the whole draft, the selectedItems mapping included, is returned unchanged. -/
theorem c10_decrement_absent_noop (d : OrderDraft) (id : String)
    (h : getKey d.selectedItems id = none) :
    updateItemQuantityDraft d id (-1) = d := by
  unfold updateItemQuantityDraft updateItemQuantity
  simp only [h, Option.getD_none, Int.zero_add]
  norm_num
  rw [delKey_of_not_mem _ _ h]

theorem c10_decrement_absent_noop_witness :
    getKey (⟨"Ana", "", [("b", 2)], Payment.zelle, ""⟩ : OrderDraft).selectedItems
      "a" = none
    ∧ updateItemQuantityDraft ⟨"Ana", "", [("b", 2)], Payment.zelle, ""⟩ "a" (-1)
      = ⟨"Ana", "", [("b", 2)], Payment.zelle, ""⟩ :=
  ⟨by decide,
    c10_decrement_absent_noop ⟨"Ana", "", [("b", 2)], Payment.zelle, ""⟩ "a"
      (by decide)⟩

/-! ### Total computation (App.tsx lines 117-121) -/

/-- The current catalog price of a product id: the price of the first
catalog product whose id matches, and the defensive default 0 when no
catalog entry matches (`product ? product.price : 0`). -/
def catalogPrice (products : List Product) (id : String) : ℚ :=
  match products.find? (fun p => p.id == id) with
  | some p => p.price
  | none => 0

/-- The reduce over Object.entries(selectedItems) computing the total:
acc + price * qty with price looked up in the current catalog. -/
def cartTotal (items : List (String × Int)) (products : List Product) : ℚ :=
  items.foldl (fun acc e => acc + catalogPrice products e.1 * (e.2 : ℚ)) 0

theorem cartTotal_foldl_general (items : List (String × Int))
    (products : List Product) (a : ℚ) :
    items.foldl (fun acc e => acc + catalogPrice products e.1 * (e.2 : ℚ)) a
      = a + (items.map (fun e => (e.2 : ℚ) * catalogPrice products e.1)).sum := by
  induction items generalizing a with
  | nil => simp
  | cons e t ih =>
    simp only [List.foldl_cons, List.map_cons, List.sum_cons, ih]
    ring

/-- C2: for every cart and catalog, the computed total equals the sum over
cart entries of quantity times the current catalog price of the entry id,
and an entry whose id has no matching catalog product contributes exactly
zero (appending such an entry leaves the total unchanged).  The
computation is a total function, so it never throws. -/
theorem c2_total_correct (items : List (String × Int))
    (products : List Product) (id : String) (q : Int)
    (h : products.find? (fun p => p.id == id) = none) :
    cartTotal items products
      = (items.map (fun e => (e.2 : ℚ) * catalogPrice products e.1)).sum
    ∧ cartTotal (items ++ [(id, q)]) products = cartTotal items products := by
  constructor
  · simpa using cartTotal_foldl_general items products 0
  · unfold cartTotal
    rw [List.foldl_append]
    simp [catalogPrice, h]

theorem c2_total_correct_witness :
    ([⟨"A", "Bolo", 5, none, none⟩] : List Product).find?
        (fun p => p.id == "Z") = none
    ∧ cartTotal [("A", 2)] [⟨"A", "Bolo", 5, none, none⟩]
      = (([("A", 2)] : List (String × Int)).map
          (fun e => (e.2 : ℚ) * catalogPrice [⟨"A", "Bolo", 5, none, none⟩] e.1)).sum
    ∧ cartTotal ([("A", 2)] ++ [("Z", 3)]) [⟨"A", "Bolo", 5, none, none⟩]
      = cartTotal [("A", 2)] [⟨"A", "Bolo", 5, none, none⟩] := by
  refine ⟨by decide, ?_⟩
  exact c2_total_correct [("A", 2)] [⟨"A", "Bolo", 5, none, none⟩] "Z" 3
    (by decide)

/-! ### Decimal digits

JS renders a nonnegative integer number into its decimal digits when it is
spliced into a template literal.  We model that rendering with a fuel
driven structural recursion so that concrete evaluation reduces in the
kernel, and we verify the round trip with the digit parser used below. -/

/-- The character of a single decimal digit. -/
def digitChar (n : Nat) : Char := Char.ofNat (48 + n)

def natReprAux : Nat → Nat → List Char → List Char
  | 0, _, acc => acc
  | fuel + 1, n, acc =>
    if n < 10 then digitChar n :: acc
    else natReprAux fuel (n / 10) (digitChar (n % 10) :: acc)

/-- The decimal digit characters of a natural number, most significant
first. -/
def natRepr (n : Nat) : List Char := natReprAux (n + 1) n []

/-- The decimal rendering of an integer (template literal splice). -/
def intRepr (q : Int) : List Char :=
  if q < 0 then '-' :: natRepr (-q).toNat else natRepr q.toNat

/-- parseInt on a string of decimal digits. -/
def natOfDigits (l : List Char) : Nat :=
  l.foldl (fun a c => a * 10 + (c.toNat - 48)) 0

theorem natReprAux_append (fuel : Nat) :
    ∀ (n : Nat) (acc : List Char),
      natReprAux fuel n acc = natReprAux fuel n [] ++ acc := by
  induction fuel with
  | zero => intro n acc; simp [natReprAux]
  | succ fuel ih =>
    intro n acc
    by_cases h : n < 10
    · simp [natReprAux, h]
    · simp only [natReprAux, h, if_neg]
      rw [ih (n / 10) (digitChar (n % 10) :: acc),
        ih (n / 10) [digitChar (n % 10)]]
      simp

theorem natReprAux_fuel (f1 : Nat) :
    ∀ (f2 n : Nat), n < f1 → n < f2 →
      natReprAux f1 n [] = natReprAux f2 n [] := by
  induction f1 with
  | zero => intro f2 n h; omega
  | succ f1 ih =>
    intro f2 n h1 h2
    match f2, h2 with
    | f2 + 1, h2 =>
      by_cases h : n < 10
      · simp [natReprAux, h]
      · simp only [natReprAux, h, if_neg]
        have hdiv : n / 10 < n := Nat.div_lt_self (by omega) (by norm_num)
        rw [natReprAux_append f1, natReprAux_append f2,
          ih f2 (n / 10) (by omega) (by omega)]

theorem natRepr_lt10 (n : Nat) (h : n < 10) : natRepr n = [digitChar n] := by
  simp [natRepr, natReprAux, h]

theorem natRepr_ge10 (n : Nat) (h : ¬ n < 10) :
    natRepr n = natRepr (n / 10) ++ [digitChar (n % 10)] := by
  have hdiv : n / 10 < n := Nat.div_lt_self (by omega) (by norm_num)
  unfold natRepr
  conv_lhs => rw [show n + 1 = n + 1 from rfl]
  rw [show natReprAux (n + 1) n [] = natReprAux n (n / 10) [digitChar (n % 10)] by
    simp [natReprAux, h]]
  rw [natReprAux_append n, natReprAux_fuel n (n / 10 + 1) (n / 10) (by omega) (by omega)]

theorem digitChar_isDigit (n : Nat) (h : n < 10) :
    (digitChar n).isDigit = true := by
  interval_cases n <;> decide

theorem natRepr_all_digits (n : Nat) :
    ∀ c ∈ natRepr n, c.isDigit = true := by
  induction n using Nat.strong_induction_on with
  | _ n ih =>
    by_cases h : n < 10
    · rw [natRepr_lt10 n h]
      intro c hc
      simp only [List.mem_singleton] at hc
      subst hc
      exact digitChar_isDigit n h
    · rw [natRepr_ge10 n h]
      intro c hc
      rcases List.mem_append.mp hc with hc | hc
      · exact ih (n / 10) (Nat.div_lt_self (by omega) (by norm_num)) c hc
      · simp only [List.mem_singleton] at hc
        subst hc
        exact digitChar_isDigit _ (Nat.mod_lt n (by norm_num))

theorem natRepr_ne_nil (n : Nat) : natRepr n ≠ [] := by
  by_cases h : n < 10
  · rw [natRepr_lt10 n h]; simp
  · rw [natRepr_ge10 n h]; simp

theorem digitChar_toNat (n : Nat) (h : n < 10) :
    (digitChar n).toNat = 48 + n := by
  interval_cases n <;> decide

theorem natOfDigits_append_single (l : List Char) (c : Char) :
    natOfDigits (l ++ [c]) = natOfDigits l * 10 + (c.toNat - 48) := by
  simp [natOfDigits, List.foldl_append]

theorem natOfDigits_natRepr (n : Nat) : natOfDigits (natRepr n) = n := by
  induction n using Nat.strong_induction_on with
  | _ n ih =>
    by_cases h : n < 10
    · rw [natRepr_lt10 n h]
      simp [natOfDigits, digitChar_toNat n h]
    · rw [natRepr_ge10 n h, natOfDigits_append_single,
        ih (n / 10) (Nat.div_lt_self (by omega) (by norm_num)),
        digitChar_toNat _ (Nat.mod_lt n (by norm_num))]
      omega

/-! ### Dates

The workflow works with civil dates; date-fns isSunday checks that the day
of the week is 0 (Sunday).  We compute the day of the week of a civil date
with the Zeller congruence, stated so that 1 means Sunday. -/

/-- A civil (year, month, day) date, as held by the Date values the
workflow passes around (the app always pins the time to local noon, so
the civil date is preserved). -/
structure Date where
  year : Nat
  month : Nat
  day : Nat
deriving DecidableEq

/-- Zeller congruence for the Gregorian calendar: 0 = Saturday,
1 = Sunday, ..., 6 = Friday. -/
def zellerDow (year month day : Nat) : Nat :=
  let y := if month ≤ 2 then year - 1 else year
  let m := if month ≤ 2 then month + 12 else month
  (day + (13 * (m + 1)) / 5 + y % 100 + (y % 100) / 4 + (y / 100) / 4
    + 5 * (y / 100)) % 7

/-- date-fns isSunday: the day of the week is Sunday. -/
def isSunday (d : Date) : Bool := zellerDow d.year d.month d.day = 1

/-- Left pad with zeros to the given width. -/
def padZero (k : Nat) (l : List Char) : List Char :=
  List.replicate (k - l.length) '0' ++ l

/-- format(date, "yyyy-MM-dd") of date-fns: zero padded ISO date key. -/
def formatISO (d : Date) : String :=
  ⟨padZero 4 (natRepr d.year) ++ '-' ::
    (padZero 2 (natRepr d.month) ++ '-' :: padZero 2 (natRepr d.day))⟩

/-! ### Date selection (App.tsx lines 218-223 and 914-927) -/

/-- Read of the availability object at an ISO date key. -/
def lookupAvail : List (String × Avail) → String → Option Avail
  | [], _ => none
  | (k, v) :: t, q => if k = q then some v else lookupAvail t q

/-- handleDateSelect: a null date is ignored; a date whose ISO key is
marked sold_out is ignored; any other date becomes the selected date. -/
def handleDateSelect (availability : List (String × Avail))
    (selected : Option Date) (date : Option Date) : Option Date :=
  match date with
  | none => selected
  | some d =>
    if lookupAvail availability (formatISO d) = some Avail.sold_out then selected
    else some d

/-- filterDate of the DatePicker (App.tsx line 919): Sundays are never
selectable, whatever the availability map holds, so the onChange handler
never fires for them (dayClassName additionally disables pointer events
on them). -/
def filterDate (d : Date) : Bool := !(isSunday d)

/-- One date click in the picker: a date failing filterDate cannot be
picked, so the selection is unchanged; otherwise handleDateSelect runs. -/
def selectDate (availability : List (String × Avail)) (selected : Option Date)
    (d : Date) : Option Date :=
  if filterDate d then handleDateSelect availability selected (some d)
  else selected

/-- C3: date selection rejects every Sunday regardless of the availability
map, rejects every date marked sold_out, and accepts any other date
(dates absent from the map included), making it the selected date. -/
theorem c3_date_selection (availability : List (String × Avail))
    (selected : Option Date) (d : Date) :
    (isSunday d = true → selectDate availability selected d = selected)
    ∧ (lookupAvail availability (formatISO d) = some Avail.sold_out →
        selectDate availability selected d = selected)
    ∧ (isSunday d = false →
        lookupAvail availability (formatISO d) ≠ some Avail.sold_out →
        selectDate availability selected d = some d) := by
  refine ⟨?_, ?_, ?_⟩
  · intro h
    simp [selectDate, filterDate, h]
  · intro h
    by_cases hs : isSunday d
    · simp [selectDate, filterDate, hs]
    · simp [selectDate, filterDate, hs, handleDateSelect, h]
  · intro hs h
    simp [selectDate, filterDate, hs, handleDateSelect, h]

theorem c3_date_selection_witness :
    isSunday ⟨2026, 3, 1⟩ = true
    ∧ selectDate [("2026-03-01", Avail.available)] none ⟨2026, 3, 1⟩ = none
    ∧ lookupAvail [("2026-03-02", Avail.sold_out)] (formatISO ⟨2026, 3, 2⟩)
        = some Avail.sold_out
    ∧ selectDate [("2026-03-02", Avail.sold_out)] none ⟨2026, 3, 2⟩ = none
    ∧ selectDate [("2026-03-02", Avail.sold_out)] none ⟨2026, 3, 3⟩
        = some ⟨2026, 3, 3⟩ :=
  ⟨by decide,
    (c3_date_selection [("2026-03-01", Avail.available)] none ⟨2026, 3, 1⟩).1
      (by decide),
    by decide,
    (c3_date_selection [("2026-03-02", Avail.sold_out)] none ⟨2026, 3, 2⟩).2.1
      (by decide),
    (c3_date_selection [("2026-03-02", Avail.sold_out)] none ⟨2026, 3, 3⟩).2.2
      (by decide) (by decide)⟩

/-! ### Phone validation (App.tsx lines 265-268) -/

/-- The anchored regex of validatePhone tested on the character list: an
opening paren, three digits, a closing paren, one space, three digits, a
dash, four digits, end of input. -/
def phoneChars : List Char → Bool
  | '(' :: a :: b :: c :: ')' :: ' ' :: d :: e :: f :: '-' :: g :: h :: i :: j :: [] =>
    a.isDigit && b.isDigit && c.isDigit && d.isDigit && e.isDigit && f.isDigit &&
      g.isDigit && h.isDigit && i.isDigit && j.isDigit
  | _ => false

/-- validatePhone: the regex test on the whole input string. -/
def validatePhone (s : String) : Bool := phoneChars s.toList

/-- The shape the spec describes: exactly an opening paren, 3 digits, a
closing paren, one space, 3 digits, a dash and 4 digits. -/
def phoneShape (s : String) : Prop :=
  ∃ d1 d2 d3 d4 d5 d6 d7 d8 d9 d10 : Char,
    (d1.isDigit = true ∧ d2.isDigit = true ∧ d3.isDigit = true
      ∧ d4.isDigit = true ∧ d5.isDigit = true ∧ d6.isDigit = true
      ∧ d7.isDigit = true ∧ d8.isDigit = true ∧ d9.isDigit = true
      ∧ d10.isDigit = true)
    ∧ s.toList = ['(', d1, d2, d3, ')', ' ', d4, d5, d6, '-', d7, d8, d9, d10]

/-- C4: validatePhone accepts a string exactly when it is an opening
paren, 3 digits, a closing paren, one space, 3 digits, a dash and 4
digits; every other string is rejected. -/
theorem c4_validate_phone (s : String) :
    validatePhone s = true ↔ phoneShape s := by
  constructor
  · intro h
    unfold validatePhone at h
    rw [phoneChars.eq_def] at h
    split at h
    · next a b c d e f g h1 h2 h3 heq =>
      refine ⟨a, b, c, d, e, f, g, h1, h2, h3, ?_, by simpa using heq⟩
      simp only [Bool.and_eq_true] at h
      tauto
    · exact absurd h (by simp)
  · rintro ⟨d1, d2, d3, d4, d5, d6, d7, d8, d9, d10, hd, heq⟩
    unfold validatePhone
    rw [heq]
    simp [phoneChars, hd.1, hd.2.1, hd.2.2.1, hd.2.2.2.1, hd.2.2.2.2.1,
      hd.2.2.2.2.2.1, hd.2.2.2.2.2.2.1, hd.2.2.2.2.2.2.2.1,
      hd.2.2.2.2.2.2.2.2.1, hd.2.2.2.2.2.2.2.2.2]

/-! ### The items summary and the submission handler
(App.tsx lines 270-325; the same summary construction appears again in
sendWhatsApp, lines 329-332) -/

/-- join("\n") over a list of lines. -/
def joinLines : List (List Char) → List Char
  | [] => []
  | [l] => l
  | l :: ls => l ++ '\n' :: joinLines ls

/-- The name spliced into a summary line: the name of the first catalog
product whose id matches, and the string undefined when none matches,
because the template literal renders p?.name of a missing product that
way. -/
def nameOf (products : List Product) (id : String) : List Char :=
  match products.find? (fun p => p.id == id) with
  | some p => p.name.toList
  | none => "undefined".toList

/-- One summary line for a cart entry: qty, the letter x, a space, the
product name. -/
def entryLine (products : List Product) (e : String × Int) : List Char :=
  intRepr e.2 ++ 'x' :: ' ' :: nameOf products e.1

/-- The items summary: one line per cart entry in cart order, joined with
newlines.  This is both the items field of the submission payload and the
itemized block of the WhatsApp confirmation message, which are built by
the same map and join. -/
def itemsSummary (products : List Product) (items : List (String × Int)) :
    String :=
  ⟨joinLines (items.map (entryLine products))⟩

/-- The JSON body of the create order request (App.tsx lines 299-307). -/
structure Payload where
  customer_name : String
  customer_phone : String
  order_date : String
  order_time : String
  items : String
  total : ℚ
  payment_method : Payment
deriving DecidableEq

def mkPayload (d : Date) (products : List Product) (draft : OrderDraft) :
    Payload :=
  { customer_name := draft.name
    customer_phone := draft.phone
    order_date := formatISO d
    order_time := draft.time
    items := itemsSummary products draft.selectedItems
    total := cartTotal draft.selectedItems products
    payment_method := draft.paymentMethod }

/-- Field level error shown under the phone input on validation failure. -/
def phoneErrorText : String :=
  "Por favor, insira um telefone válido no formato (XXX) XXX-XXXX"

/-- Fallback alert when a failure body parses but err.error is falsy. -/
def orderErrorFallback : String := "Erro ao processar pedido"

/-- Alert of the catch branch (fetch threw, or res.json() threw). -/
def connectionError : String := "Erro de conexão"

/-- Behavior of the create order fetch as observed by the handler: success
status; failure status whose JSON body carries the given error field
(none models a body whose error field is absent); failure status whose
body does not parse as JSON, which makes res.json() throw inside the try
block; or a network failure where fetch itself throws. -/
inductive FetchResult
  | ok
  | errBody (err : Option String)
  | errUnparsable
  | networkFail

/-- What one submitOrder call produced: the page afterwards, the draft
afterwards (never modified by the handler), the phone error field, the
list of create order requests sent, and the alert text if one was shown. -/
structure SubmitResult where
  page : Page
  draft : OrderDraft
  phoneError : String
  requests : List Payload
  alertMsg : Option String
deriving DecidableEq

/-- submitOrder (App.tsx lines 270-325): returns silently when no date is
selected or the total is 0; returns with the phone field error set when
the phone fails validation; otherwise sends exactly one create order
request and handles the response.  A success status moves to the success
page; a failure status alerts err.error when truthy and the fallback
otherwise; an unparsable failure body makes res.json() throw into the
catch, which alerts the connection message, as does a network failure. -/
def submitOrder (page : Page) (selectedDate : Option Date)
    (products : List Product) (phoneError0 : String) (draft : OrderDraft)
    (server : FetchResult) : SubmitResult :=
  match selectedDate with
  | none => ⟨page, draft, phoneError0, [], none⟩
  | some d =>
    if cartTotal draft.selectedItems products = 0 then
      ⟨page, draft, phoneError0, [], none⟩
    else if validatePhone draft.phone = false then
      ⟨page, draft, phoneErrorText, [], none⟩
    else
      let payload := mkPayload d products draft
      match server with
      | FetchResult.ok => ⟨Page.success, draft, phoneError0, [payload], none⟩
      | FetchResult.errBody err =>
        ⟨page, draft, phoneError0, [payload],
          some (match err with
            | some msg => if msg = "" then orderErrorFallback else msg
            | none => orderErrorFallback)⟩
      | FetchResult.errUnparsable =>
        ⟨page, draft, phoneError0, [payload], some connectionError⟩
      | FetchResult.networkFail =>
        ⟨page, draft, phoneError0, [payload], some connectionError⟩

/-- The catalog of testable property 5: products A at 5.00 and B at 3.00
(ids and names both the single letters). -/
def anaCatalog : List Product :=
  [⟨"A", "A", 5, none, none⟩, ⟨"B", "B", 3, none, none⟩]

/-- The draft of testable property 5. -/
def anaDraft : OrderDraft :=
  ⟨"Ana", "(770) 111-2222", [("A", 2), ("B", 1)], Payment.zelle, "10:00"⟩

theorem ana_total : cartTotal anaDraft.selectedItems anaCatalog = 13 := by
  norm_num [cartTotal, catalogPrice, anaDraft, anaCatalog, List.find?,
    show (("A" : String) == "A") = true from rfl,
    show (("A" : String) == "B") = false from rfl,
    show (("B" : String) == "A") = false from rfl,
    show (("B" : String) == "B") = true from rfl]

/-- C5 amended: for the Ana draft (items A:2 then B:1, phone well formed,
Monday 2026-03-02 at 10:00) against the catalog A at 5.00 and B at 3.00,
the submission sends exactly one payload, with total exactly 13.00 and an
items summary of exactly the two lines 2x A then 1x B (the quantity, the
letter x, one space, then the product name), in cart insertion order. -/
theorem c5_submission_payload :
    (submitOrder Page.order (some ⟨2026, 3, 2⟩) anaCatalog "" anaDraft
        FetchResult.ok).requests.map (fun pl => (pl.total, pl.items))
      = [((13 : ℚ), "2x A" ++ "\n" ++ "1x B")] := by
  have htot := ana_total
  have hphone : validatePhone anaDraft.phone = true := by decide
  have hitems : itemsSummary anaCatalog anaDraft.selectedItems
      = "2x A" ++ "\n" ++ "1x B" := by decide
  simp [submitOrder, htot, hphone, mkPayload, hitems]

/-- C5 as literally stated is off by the separator: a summary line is the
quantity, the letter x, then one space before the name, so the payload
items text differs from the two lines 2xA and 1xB written without the
space. -/
theorem c5_submission_payload_counterexample :
    (submitOrder Page.order (some ⟨2026, 3, 2⟩) anaCatalog "" anaDraft
        FetchResult.ok).requests.map Payload.items
      ≠ ["2xA" ++ "\n" ++ "1xB"] := by
  have htot := ana_total
  have hphone : validatePhone anaDraft.phone = true := by decide
  have hitems : itemsSummary anaCatalog anaDraft.selectedItems
      = "2x A" ++ "\n" ++ "1x B" := by decide
  simp [submitOrder, htot, hphone, mkPayload, hitems]

/-- C6: whenever no date is selected, or the total is 0, or the phone
fails validation, submission sends no create order request, shows no
alert, and leaves the page and the draft unchanged; when the abort is the
malformed phone case (a date is selected and the total is nonzero), the
phone field error message is set. -/
theorem c6_preconditions_block_network (page : Page)
    (selectedDate : Option Date) (products : List Product) (pe0 : String)
    (draft : OrderDraft) (server : FetchResult)
    (h : selectedDate = none ∨ cartTotal draft.selectedItems products = 0
        ∨ validatePhone draft.phone = false) :
    (submitOrder page selectedDate products pe0 draft server).requests = []
    ∧ (submitOrder page selectedDate products pe0 draft server).draft = draft
    ∧ (submitOrder page selectedDate products pe0 draft server).page = page
    ∧ (submitOrder page selectedDate products pe0 draft server).alertMsg = none
    ∧ (∀ d, selectedDate = some d →
        cartTotal draft.selectedItems products ≠ 0 →
        validatePhone draft.phone = false →
        (submitOrder page selectedDate products pe0 draft server).phoneError
          = phoneErrorText) := by
  cases selectedDate with
  | none => simp [submitOrder]
  | some d =>
    rcases h with h | h | h
    · exact absurd h (by simp)
    · simp [submitOrder, h]
    · by_cases htot : cartTotal draft.selectedItems products = 0
      · simp [submitOrder, htot]
      · simp [submitOrder, htot, h]

theorem c6_preconditions_block_network_witness :
    ((some (⟨2026, 3, 2⟩ : Date)) = none
      ∨ cartTotal (⟨"", "", [], Payment.zelle, ""⟩ : OrderDraft).selectedItems []
          = 0
      ∨ validatePhone (⟨"", "", [], Payment.zelle, ""⟩ : OrderDraft).phone
          = false)
    ∧ ((submitOrder Page.order (some ⟨2026, 3, 2⟩) [] ""
          ⟨"", "", [], Payment.zelle, ""⟩ FetchResult.ok).requests = []
        ∧ (submitOrder Page.order (some ⟨2026, 3, 2⟩) [] ""
            ⟨"", "", [], Payment.zelle, ""⟩ FetchResult.ok).draft
          = ⟨"", "", [], Payment.zelle, ""⟩
        ∧ (submitOrder Page.order (some ⟨2026, 3, 2⟩) [] ""
            ⟨"", "", [], Payment.zelle, ""⟩ FetchResult.ok).page = Page.order
        ∧ (submitOrder Page.order (some ⟨2026, 3, 2⟩) [] ""
            ⟨"", "", [], Payment.zelle, ""⟩ FetchResult.ok).alertMsg = none
        ∧ (∀ d, (some (⟨2026, 3, 2⟩ : Date)) = some d →
            cartTotal (⟨"", "", [], Payment.zelle, ""⟩ : OrderDraft).selectedItems
              [] ≠ 0 →
            validatePhone (⟨"", "", [], Payment.zelle, ""⟩ : OrderDraft).phone
              = false →
            (submitOrder Page.order (some ⟨2026, 3, 2⟩) [] ""
              ⟨"", "", [], Payment.zelle, ""⟩ FetchResult.ok).phoneError
              = phoneErrorText)) :=
  ⟨Or.inr (Or.inl rfl),
    c6_preconditions_block_network Page.order (some ⟨2026, 3, 2⟩) [] ""
      ⟨"", "", [], Payment.zelle, ""⟩ FetchResult.ok (Or.inr (Or.inl rfl))⟩

/-- C7: when the preconditions pass and the create order request comes
back with a failure status whose body is the JSON object with error field
Dia esgotado, the alert shows exactly Dia esgotado; when the failure body
is unparsable, the fixed generic message of the catch branch is shown
instead of a propagated parse exception; in both cases the page is
unchanged (no transition to the success page) and the draft is kept. -/
theorem c7_server_error_display (page : Page) (d : Date)
    (products : List Product) (pe0 : String) (draft : OrderDraft)
    (htot : cartTotal draft.selectedItems products ≠ 0)
    (hphone : validatePhone draft.phone = true) :
    ((submitOrder page (some d) products pe0 draft
        (FetchResult.errBody (some "Dia esgotado"))).alertMsg
          = some "Dia esgotado"
      ∧ (submitOrder page (some d) products pe0 draft
          (FetchResult.errBody (some "Dia esgotado"))).page = page
      ∧ (submitOrder page (some d) products pe0 draft
          (FetchResult.errBody (some "Dia esgotado"))).draft = draft)
    ∧ ((submitOrder page (some d) products pe0 draft
        FetchResult.errUnparsable).alertMsg = some connectionError
      ∧ (submitOrder page (some d) products pe0 draft
          FetchResult.errUnparsable).page = page
      ∧ (submitOrder page (some d) products pe0 draft
          FetchResult.errUnparsable).draft = draft) := by
  simp [submitOrder, htot, hphone]

theorem c7_server_error_display_witness :
    cartTotal (⟨"Ana", "(770) 111-2222", [("A", 1)], Payment.zelle,
        "10:00"⟩ : OrderDraft).selectedItems [⟨"A", "A", 1, none, none⟩] ≠ 0
    ∧ validatePhone (⟨"Ana", "(770) 111-2222", [("A", 1)], Payment.zelle,
        "10:00"⟩ : OrderDraft).phone = true
    ∧ (submitOrder Page.order (some ⟨2026, 3, 2⟩) [⟨"A", "A", 1, none, none⟩]
        "" ⟨"Ana", "(770) 111-2222", [("A", 1)], Payment.zelle, "10:00"⟩
        (FetchResult.errBody (some "Dia esgotado"))).alertMsg
      = some "Dia esgotado"
    ∧ (submitOrder Page.order (some ⟨2026, 3, 2⟩) [⟨"A", "A", 1, none, none⟩]
        "" ⟨"Ana", "(770) 111-2222", [("A", 1)], Payment.zelle, "10:00"⟩
        FetchResult.errUnparsable).alertMsg = some connectionError :=
  ⟨by norm_num [cartTotal, catalogPrice, List.find?],
    by decide,
    ((c7_server_error_display Page.order ⟨2026, 3, 2⟩
        [⟨"A", "A", 1, none, none⟩] ""
        ⟨"Ana", "(770) 111-2222", [("A", 1)], Payment.zelle, "10:00"⟩
        (by norm_num [cartTotal, catalogPrice, List.find?])
        (by decide)).1).1,
    ((c7_server_error_display Page.order ⟨2026, 3, 2⟩
        [⟨"A", "A", 1, none, none⟩] ""
        ⟨"Ana", "(770) 111-2222", [("A", 1)], Payment.zelle, "10:00"⟩
        (by norm_num [cartTotal, catalogPrice, List.find?])
        (by decide)).2).1⟩

/-! ### Query parameter restore on load
(App.tsx lines 40-44, 177-197, 225-233) -/

/-- The fixed half hour slot sequence (App.tsx lines 40-44). -/
def TIME_SLOTS : List String :=
  ["08:00", "08:30", "09:00", "09:30", "10:00", "10:30", "11:00", "11:30",
   "12:00", "12:30", "13:00", "13:30", "14:00", "14:30", "15:00", "15:30",
   "16:00", "16:30", "17:00", "17:30", "18:00"]

def isLeap (y : Nat) : Bool :=
  y % 4 = 0 && (y % 100 ≠ 0 || y % 400 = 0)

def daysInMonth (y m : Nat) : Nat :=
  if m = 2 then (if isLeap y then 29 else 28)
  else if m = 4 ∨ m = 6 ∨ m = 9 ∨ m = 11 then 30
  else 31

/-- Date parsing of the initial load (App.tsx line 186):
new Date(dateParam + "T12:00:00") for a YYYY-MM-DD shaped dateParam,
which is the shape the app itself writes into the query string.  Per the
ECMAScript date time string format the result is a valid Date exactly
when the four-two-two digit groups are in calendar range, and an invalid
Date (getTime() is NaN) otherwise.  Implementation defined fallback
formats for other inputs are out of scope of this model. -/
def parseDateParam (s : String) : Option Date :=
  match s.toList with
  | [y1, y2, y3, y4, '-', m1, m2, '-', dd1, dd2] =>
    if y1.isDigit && y2.isDigit && y3.isDigit && y4.isDigit && m1.isDigit &&
        m2.isDigit && dd1.isDigit && dd2.isDigit then
      let y := natOfDigits [y1, y2, y3, y4]
      let m := natOfDigits [m1, m2]
      let d := natOfDigits [dd1, dd2]
      if 1 ≤ m ∧ m ≤ 12 ∧ 1 ≤ d ∧ d ≤ daysInMonth y m then some ⟨y, m, d⟩
      else none
    else none
  | _ => none

/-- Resulting workflow state after the initial load effect. -/
structure LoadResult where
  selectedDate : Option Date
  time : String
  page : Page
deriving DecidableEq

/-- The initial load effect (App.tsx lines 177-197): a truthy date
parameter that parses to a valid non Sunday date becomes the selected
date; on top of that, a truthy time parameter contained in TIME_SLOTS is
stored into the draft and the page advances to the order step; in every
other case the page stays on the scheduling step and the draft keeps the
initial empty time. -/
def loadFromQuery (dateParam timeParam : Option String) : LoadResult :=
  match dateParam with
  | none => ⟨none, "", Page.schedule⟩
  | some ds =>
    if ds = "" then ⟨none, "", Page.schedule⟩
    else
      match parseDateParam ds with
      | none => ⟨none, "", Page.schedule⟩
      | some d =>
        if isSunday d then ⟨none, "", Page.schedule⟩
        else
          match timeParam with
          | none => ⟨some d, "", Page.schedule⟩
          | some t =>
            if t ≠ "" ∧ TIME_SLOTS.contains t then ⟨some d, t, Page.order⟩
            else ⟨some d, "", Page.schedule⟩

/-- C9: loading with a date and a time parameter auto-advances to the
order step with that date and slot pre-selected exactly when the date
parses as a valid non Sunday date and the slot is a member of TIME_SLOTS;
when the slot is absent or not in the sequence the workflow stays on the
scheduling step, still pre-selecting the date when it is valid and not a
Sunday. -/
theorem c9_query_preselect (ds t : String) (hds : ds ≠ "") (ht : t ≠ "") :
    ((loadFromQuery (some ds) (some t)).page = Page.order ↔
      (∃ d, parseDateParam ds = some d ∧ isSunday d = false
        ∧ t ∈ TIME_SLOTS))
    ∧ ((loadFromQuery (some ds) (some t)).page = Page.order →
        ∃ d, parseDateParam ds = some d
          ∧ (loadFromQuery (some ds) (some t)).selectedDate = some d
          ∧ (loadFromQuery (some ds) (some t)).time = t)
    ∧ (t ∉ TIME_SLOTS →
        (loadFromQuery (some ds) (some t)).page = Page.schedule
        ∧ ∀ d, parseDateParam ds = some d → isSunday d = false →
            (loadFromQuery (some ds) (some t)).selectedDate = some d)
    ∧ ((loadFromQuery (some ds) none).page = Page.schedule
        ∧ ∀ d, parseDateParam ds = some d → isSunday d = false →
            (loadFromQuery (some ds) none).selectedDate = some d) := by
  have hmem : TIME_SLOTS.contains t = true ↔ t ∈ TIME_SLOTS :=
    List.elem_iff
  cases hp : parseDateParam ds with
  | none =>
    have hload : loadFromQuery (some ds) (some t)
        = ⟨none, "", Page.schedule⟩ := by
      simp [loadFromQuery, hds, hp]
    have hload2 : loadFromQuery (some ds) none
        = ⟨none, "", Page.schedule⟩ := by
      simp [loadFromQuery, hds, hp]
    refine ⟨?_, ?_, ?_, ?_⟩
    · rw [hload]
      constructor
      · intro h
        simp at h
      · rintro ⟨d, hd, _⟩
        exact absurd hd (by simp)
    · intro h
      rw [hload] at h
      simp at h
    · intro _
      refine ⟨by simp [hload], ?_⟩
      intro d hd
      exact absurd hd (by simp)
    · refine ⟨by simp [hload2], ?_⟩
      intro d hd
      exact absurd hd (by simp)
  | some d =>
    by_cases hs : isSunday d = true
    · have hload : loadFromQuery (some ds) (some t)
          = ⟨none, "", Page.schedule⟩ := by
        simp [loadFromQuery, hds, hp, hs]
      have hload2 : loadFromQuery (some ds) none
          = ⟨none, "", Page.schedule⟩ := by
        simp [loadFromQuery, hds, hp, hs]
      refine ⟨?_, ?_, ?_, ?_⟩
      · rw [hload]
        constructor
        · intro h
          simp at h
        · rintro ⟨d2, hd2, hsun, _⟩
          injection hd2 with hd2
          subst hd2
          rw [hs] at hsun
          exact absurd hsun (by simp)
      · intro h
        rw [hload] at h
        simp at h
      · intro _
        refine ⟨by simp [hload], ?_⟩
        intro d2 hd2 hsun
        injection hd2 with hd2
        subst hd2
        rw [hs] at hsun
        exact absurd hsun (by simp)
      · refine ⟨by simp [hload2], ?_⟩
        intro d2 hd2 hsun
        injection hd2 with hd2
        subst hd2
        rw [hs] at hsun
        exact absurd hsun (by simp)
    · have hload2 : loadFromQuery (some ds) none
          = ⟨some d, "", Page.schedule⟩ := by
        simp [loadFromQuery, hds, hp, hs]
      by_cases hc : TIME_SLOTS.contains t = true
      · have hmem2 : t ∈ TIME_SLOTS := hmem.mp hc
        have hload : loadFromQuery (some ds) (some t)
            = ⟨some d, t, Page.order⟩ := by
          simp [loadFromQuery, hds, hp, hs, ht, hc, hmem2]
        refine ⟨?_, ?_, ?_, ?_⟩
        · rw [hload]
          constructor
          · intro _
            exact ⟨d, rfl, by simpa using hs, hmem2⟩
          · intro _
            rfl
        · intro _
          exact ⟨d, rfl, by simp [hload], by simp [hload]⟩
        · intro hnm
          exact absurd hmem2 hnm
        · refine ⟨by simp [hload2], ?_⟩
          intro d2 hd2 _
          injection hd2 with hd2
          subst hd2
          simp [hload2]
      · have hnm : t ∉ TIME_SLOTS := fun hm => hc (hmem.mpr hm)
        have hload : loadFromQuery (some ds) (some t)
            = ⟨some d, "", Page.schedule⟩ := by
          simp [loadFromQuery, hds, hp, hs, hnm]
        refine ⟨?_, ?_, ?_, ?_⟩
        · rw [hload]
          constructor
          · intro h
            simp at h
          · rintro ⟨d2, hd2, _, hm⟩
            exact absurd hm hnm
        · intro h
          rw [hload] at h
          simp at h
        · intro _
          refine ⟨by simp [hload], ?_⟩
          intro d2 hd2 _
          injection hd2 with hd2
          subst hd2
          simp [hload]
        · refine ⟨by simp [hload2], ?_⟩
          intro d2 hd2 _
          injection hd2 with hd2
          subst hd2
          simp [hload2]

theorem c9_query_preselect_witness :
    (("2026-03-02" : String) ≠ "" ∧ ("10:00" : String) ≠ "")
    ∧ ((loadFromQuery (some "2026-03-02") (some "10:00")).page = Page.order ↔
        (∃ d, parseDateParam "2026-03-02" = some d ∧ isSunday d = false
          ∧ ("10:00" : String) ∈ TIME_SLOTS)) :=
  ⟨⟨by decide, by decide⟩,
    (c9_query_preselect "2026-03-02" "10:00" (by decide) (by decide)).1⟩

/-! ### Admin side parsing of an order items text
(startEditingOrder, App.tsx lines 65-82) and its round trip with the
items summary construction of the confirmation message (sendWhatsApp,
App.tsx lines 329-332, identical to the submission summary). -/

/-- The ECMAScript whitespace set, WhiteSpace together with
LineTerminator: this is exactly the class the regex escape \s matches
and the set String.trim strips.  WhiteSpace is TAB, VT, FF, ZWNBSP
(U+FEFF) and every Space_Separator code point (U+0020, U+00A0, U+1680,
U+2000..U+200A, U+202F, U+205F, U+3000); LineTerminator is LF, CR,
U+2028 and U+2029. -/
def isWS (c : Char) : Bool :=
  let n := c.toNat
  (9 ≤ n && n ≤ 13) || n == 32 || n == 160 || n == 0x1680 ||
    (0x2000 ≤ n && n ≤ 0x200A) || n == 0x2028 || n == 0x2029 ||
    n == 0x202F || n == 0x205F || n == 0x3000 || n == 0xFEFF

/-- The ECMAScript LineTerminator set: LF, CR, U+2028 and U+2029.  The
regex metacharacter . (without the s flag) matches every character
except these. -/
def isLineTerm (c : Char) : Bool :=
  let n := c.toNat
  n == 10 || n == 13 || n == 0x2028 || n == 0x2029

/-- JS String.trim: strip whitespace from both ends. -/
def trimList (l : List Char) : List Char :=
  ((l.dropWhile isWS).reverse.dropWhile isWS).reverse

/-- Extend the first part of a split with one leading character. -/
def consHead (c : Char) : List (List Char) → List (List Char)
  | [] => [[c]]
  | p :: ps => (c :: p) :: ps

/-- split(/, |\n/): the text is cut at every newline and at every comma
immediately followed by a space (the two alternatives are disjoint on
their first character, so regex alternation order does not matter). -/
def splitSeps : List Char → List (List Char)
  | [] => [[]]
  | c :: rest =>
    if c = '\n' then [] :: splitSeps rest
    else if c = ',' then
      match rest with
      | ' ' :: rest2 => [] :: splitSeps rest2
      | [] => consHead c (splitSeps [])
      | c2 :: rest2 => consHead c (splitSeps (c2 :: rest2))
    else consHead c (splitSeps rest)

/-- One application of the anchored line regex (digits)x\s+(rest): the
maximal leading digit run, the literal x, a run of at least one \s
character, then a final group of at least one character matched by the
dot, which excludes line terminators.  Since the final group is anchored
to the end, the greedy \s+ run is given back character by character only
until the remaining tail is nonempty and free of line terminators: when
anything follows the whitespace run, the tail is that remainder,
rejected whenever a line terminator occurs in it; when only whitespace
follows the x, the final group keeps exactly the last whitespace
character, provided it is not itself a line terminator.  Returns parseInt
of the digit group together with the final capture group. -/
def matchLine (l : List Char) : Option (Nat × List Char) :=
  let ds := l.takeWhile Char.isDigit
  let r1 := l.dropWhile Char.isDigit
  if ds = [] then none
  else
    match r1 with
    | 'x' :: r2 =>
      let sp := r2.takeWhile isWS
      let r3 := r2.dropWhile isWS
      if sp = [] then none
      else if r3 = [] then
        match sp with
        | [] => none
        | [_] => none
        | _ =>
          if isLineTerm (sp.getLastD ' ') then none
          else some (natOfDigits ds, [sp.getLastD ' '])
      else if r3.any isLineTerm then none
      else some (natOfDigits ds, r3)
    | _ => none

/-- The body of the forEach of startEditingOrder for one part: when the
part matches the line regex, look the trimmed name up in the catalog and
store parseInt of the digit group under the id of the product found; a
part that does not match, or whose name no product carries, changes
nothing. -/
def parseStep (products : List Product) (m : List (String × Int))
    (part : List Char) : List (String × Int) :=
  match matchLine part with
  | none => m
  | some (qty, rest) =>
    match products.find? (fun prod => prod.name.toList == trimList rest) with
    | some prod => setKey m prod.id (qty : Int)
    | none => m

/-- The items parsing of startEditingOrder (App.tsx lines 65-82): split
the items text at the separators, drop empty parts (filter(Boolean)),
then run parseStep over the parts in order, starting from the empty
mapping (a later line overwrites an earlier one with the same product). -/
def startEditingItems (items : String) (products : List Product) :
    List (String × Int) :=
  ((splitSeps items.toList).filter (fun p => p ≠ [])).foldl
    (parseStep products) []

/-- No comma immediately followed by a space anywhere in the list. -/
def noCS : List Char → Bool
  | [] => true
  | [_] => true
  | c1 :: c2 :: rest => !(c1 == ',' && c2 == ' ') && noCS (c2 :: rest)

/-- A product name that survives the split and the re-parse: nonempty, no
line terminator (LF, CR, U+2028, U+2029), no comma followed by a space,
and no leading or trailing character of the ECMAScript whitespace set. -/
def goodName (l : List Char) : Bool :=
  !l.isEmpty && !l.any isLineTerm && noCS l
    && (match l.head? with | some c => !isWS c | none => true)
    && (match l.getLast? with | some c => !isWS c | none => true)

/-- C8 as stated is already violated by a single product whose name
contains a comma followed by a space: the split of the summary cuts the
name apart, the re-parse finds no catalog product, and the quantity is
lost, although the cart key does name a product present in the catalog. -/
theorem c8_roundtrip_counterexample :
    (∃ p ∈ [({ id := "p1", name := "A, B", price := 5 } : Product)],
        Product.id p = "p1")
    ∧ getKey (startEditingItems
        (itemsSummary [({ id := "p1", name := "A, B", price := 5 } : Product)]
          [("p1", 2)])
        [({ id := "p1", name := "A, B", price := 5 } : Product)]) "p1"
      ≠ some 2 := by
  constructor
  · exact ⟨_, List.mem_singleton.mpr rfl, rfl⟩
  · decide

theorem string_toList_inj (s t : String) (h : s.toList = t.toList) : s = t := by
  cases s; cases t
  simp only [String.toList] at h
  exact congrArg String.mk h

theorem noCS_tail (c : Char) (l : List Char) (h : noCS (c :: l) = true) :
    noCS l = true := by
  cases l with
  | nil => rfl
  | cons c2 t =>
    simp only [noCS, Bool.and_eq_true] at h
    exact h.2

theorem splitSeps_default (c : Char) (rest : List Char) (h1 : c ≠ '\n')
    (h2 : ¬ (c = ',' ∧ ∃ r, rest = ' ' :: r)) :
    splitSeps (c :: rest) = consHead c (splitSeps rest) := by
  rw [splitSeps.eq_def]
  simp only []
  rw [if_neg h1]
  by_cases hc : c = ','
  · subst hc
    rw [if_pos rfl]
    cases rest with
    | nil => rfl
    | cons c2 r =>
      by_cases h2' : c2 = ' '
      · exact absurd ⟨rfl, r, by rw [h2']⟩ h2
      · split
        · next r2 heq =>
          injection heq with he1 _
          exact absurd he1 h2'
        · next heq =>
          simp at heq
        · next c3 r3 hx heq =>
          injection heq with he1 he2
          subst he1
          subst he2
          rfl
  · rw [if_neg hc]

theorem splitSeps_line_append : ∀ (l rest : List Char), '\n' ∉ l →
    noCS l = true → splitSeps (l ++ '\n' :: rest) = l :: splitSeps rest := by
  intro l
  induction l with
  | nil =>
    intro rest _ _
    rw [List.nil_append, splitSeps.eq_def]
    rfl
  | cons c t ih =>
    intro rest hn hcs
    have h1 : c ≠ '\n' := fun h => hn (by simp [h])
    have h2 : ¬ (c = ',' ∧ ∃ r, t ++ '\n' :: rest = ' ' :: r) := by
      rintro ⟨rfl, r, hr⟩
      cases t with
      | nil => simp at hr
      | cons c2 t2 =>
        rw [List.cons_append] at hr
        injection hr with he1 _
        subst he1
        simp [noCS] at hcs
    have hnt : '\n' ∉ t := fun h => hn (by simp [h])
    rw [List.cons_append, splitSeps_default c _ h1 h2,
      ih rest hnt (noCS_tail c t hcs)]
    rfl

theorem splitSeps_line : ∀ (l : List Char), '\n' ∉ l → noCS l = true →
    splitSeps l = [l] := by
  intro l
  induction l with
  | nil =>
    intro _ _
    rfl
  | cons c t ih =>
    intro hn hcs
    have h1 : c ≠ '\n' := fun h => hn (by simp [h])
    have h2 : ¬ (c = ',' ∧ ∃ r, t = ' ' :: r) := by
      rintro ⟨rfl, r, hr⟩
      subst hr
      simp [noCS] at hcs
    have hnt : '\n' ∉ t := fun h => hn (by simp [h])
    rw [splitSeps_default c t h1 h2, ih hnt (noCS_tail c t hcs)]
    rfl

theorem joinLines_cons_cons (l l2 : List Char) (ls : List (List Char)) :
    joinLines (l :: l2 :: ls) = l ++ '\n' :: joinLines (l2 :: ls) := rfl

theorem splitSeps_joinLines : ∀ (lines : List (List Char)),
    (∀ l ∈ lines, '\n' ∉ l ∧ noCS l = true) → lines ≠ [] →
    splitSeps (joinLines lines) = lines := by
  intro lines
  induction lines with
  | nil =>
    intro _ h
    exact absurd rfl h
  | cons l ls ih =>
    intro hall _
    cases ls with
    | nil =>
      have hl := hall l (by simp)
      rw [show joinLines [l] = l from rfl, splitSeps_line l hl.1 hl.2]
    | cons l2 ls2 =>
      have hl := hall l (by simp)
      rw [joinLines_cons_cons, splitSeps_line_append l _ hl.1 hl.2,
        ih (fun x hx => hall x (by simp [hx])) (by simp)]

theorem noCS_append : ∀ (l1 l2 : List Char), ',' ∉ l1 → noCS l2 = true →
    noCS (l1 ++ l2) = true := by
  intro l1
  induction l1 with
  | nil =>
    intro l2 _ h
    simpa using h
  | cons c t ih =>
    intro l2 hc hl2
    have htail : noCS (t ++ l2) = true :=
      ih l2 (fun hm => hc (List.mem_cons_of_mem _ hm)) hl2
    rw [List.cons_append]
    cases hteq : t ++ l2 with
    | nil => rfl
    | cons c2 r =>
      rw [hteq] at htail
      have hcc : (c == ',') = false := by
        rw [beq_eq_false_iff_ne]
        intro h
        exact hc (by simp [h])
      simp [noCS, hcc, htail]

theorem takeWhile_all_append (p : Char → Bool) :
    ∀ (l1 : List Char) (c : Char) (l2 : List Char),
      (∀ x ∈ l1, p x = true) → p c = false →
      ((l1 ++ c :: l2).takeWhile p = l1
        ∧ (l1 ++ c :: l2).dropWhile p = c :: l2) := by
  intro l1
  induction l1 with
  | nil =>
    intro c l2 _ hc
    simp [List.takeWhile_cons, List.dropWhile_cons, hc]
  | cons x t ih =>
    intro c l2 hall hc
    have hx : p x = true := hall x (by simp)
    have h2 := ih c l2 (fun y hy => hall y (by simp [hy])) hc
    simp [List.takeWhile_cons, List.dropWhile_cons, hx, h2.1, h2.2]

theorem matchLine_entry (q : Nat) (name : List Char) (hne : name ≠ [])
    (hw : ∀ c, name.head? = some c → isWS c = false)
    (hlt : name.any isLineTerm = false) :
    matchLine (natRepr q ++ 'x' :: ' ' :: name) = some (q, name) := by
  have hdig := takeWhile_all_append Char.isDigit (natRepr q) 'x' (' ' :: name)
    (natRepr_all_digits q) (by decide)
  have hwname : name.takeWhile isWS = [] ∧ name.dropWhile isWS = name := by
    cases name with
    | nil => exact absurd rfl hne
    | cons c t =>
      have := hw c rfl
      simp [List.takeWhile_cons, List.dropWhile_cons, this]
  have hsp : (' ' :: name).takeWhile isWS = [' '] := by
    rw [List.takeWhile_cons]
    simp [show isWS ' ' = true from rfl, hwname.1]
  have hdp : (' ' :: name).dropWhile isWS = name := by
    rw [List.dropWhile_cons]
    simp [show isWS ' ' = true from rfl, hwname.2]
  simp only [matchLine, hdig.1, hdig.2, hsp, hdp]
  rw [if_neg (natRepr_ne_nil q)]
  simp [hne, hlt, natOfDigits_natRepr q]

theorem trimList_eq_self (l : List Char)
    (h1 : ∀ c, l.head? = some c → isWS c = false)
    (h2 : ∀ c, l.getLast? = some c → isWS c = false) :
    trimList l = l := by
  have hd : l.dropWhile isWS = l := by
    cases l with
    | nil => rfl
    | cons c t =>
      rw [List.dropWhile_cons]
      simp [h1 c rfl]
  have hrev : l.reverse.dropWhile isWS = l.reverse := by
    cases hr : l.reverse with
    | nil => rfl
    | cons c t =>
      have hlast : l.getLast? = some c := by
        rw [← List.head?_reverse, hr]
        rfl
      rw [List.dropWhile_cons]
      simp [h2 c hlast]
  unfold trimList
  rw [hd, hrev, List.reverse_reverse]

theorem find?_by_id : ∀ (products : List Product) (p : Product),
    (products.map Product.id).Nodup → p ∈ products →
    products.find? (fun x => x.id == p.id) = some p := by
  intro products
  induction products with
  | nil =>
    intro p _ hp
    simp at hp
  | cons x t ih =>
    intro p hn hp
    simp only [List.map_cons, List.nodup_cons] at hn
    rcases List.mem_cons.mp hp with rfl | hp'
    · exact List.find?_cons_of_pos _ (by simp)
    · have hx : (x.id == p.id) = false := by
        rw [beq_eq_false_iff_ne]
        intro he
        exact hn.1 (he ▸ List.mem_map_of_mem Product.id hp')
      rw [List.find?_cons_of_neg _ (by simp [hx]), ih p hn.2 hp']

theorem find?_by_name : ∀ (products : List Product) (p : Product),
    (products.map Product.name).Nodup → p ∈ products →
    products.find? (fun x => x.name.toList == p.name.toList) = some p := by
  intro products
  induction products with
  | nil =>
    intro p _ hp
    simp at hp
  | cons x t ih =>
    intro p hn hp
    simp only [List.map_cons, List.nodup_cons] at hn
    rcases List.mem_cons.mp hp with rfl | hp'
    · exact List.find?_cons_of_pos _ (by simp)
    · have hx : (x.name.toList == p.name.toList) = false := by
        rw [beq_eq_false_iff_ne]
        intro he
        have he' : x.name = p.name := string_toList_inj _ _ he
        refine hn.1 ?_
        rw [he']
        exact List.mem_map_of_mem Product.name hp'

      rw [List.find?_cons_of_neg _ (by rw [hx]; simp), ih p hn.2 hp']

theorem setKey_fresh : ∀ (m : List (String × Int)) (k : String) (v : Int),
    k ∉ keysOf m → setKey m k v = m ++ [(k, v)] := by
  intro m
  induction m with
  | nil =>
    intro k v _
    rfl
  | cons e t ih =>
    intro k v h
    obtain ⟨k2, w⟩ := e
    simp only [keysOf, List.map_cons, List.mem_cons, not_or] at h
    simp only [setKey]
    rw [if_neg (fun he => h.1 (he.symm)), ih k v (by simpa [keysOf] using h.2)]
    simp

theorem foldl_congr_mem {α β : Type} (f g : α → β → α) :
    ∀ (l : List β) (acc : α), (∀ m e, e ∈ l → f m e = g m e) →
      l.foldl f acc = l.foldl g acc := by
  intro l
  induction l with
  | nil =>
    intro acc _
    rfl
  | cons e t ih =>
    intro acc h
    simp only [List.foldl_cons]
    rw [h acc e (by simp)]
    exact ih _ (fun m x hx => h m x (by simp [hx]))

theorem foldl_setKey : ∀ (cart acc : List (String × Int)),
    (keysOf (acc ++ cart)).Nodup →
    cart.foldl (fun m e => setKey m e.1 e.2) acc = acc ++ cart := by
  intro cart
  induction cart with
  | nil =>
    intro acc _
    simp
  | cons e t ih =>
    intro acc h
    have hdisj : (keysOf acc).Disjoint (keysOf (e :: t)) := by
      have := List.nodup_append.mp (by simpa [keysOf] using h)
      exact this.2.2
    have hk : e.1 ∉ keysOf acc := fun hmem =>
      hdisj hmem (by simp [keysOf])
    simp only [List.foldl_cons]
    rw [setKey_fresh acc e.1 e.2 hk]
    have he : acc ++ [(e.1, e.2)] = acc ++ [e] := by simp
    rw [he]
    have hn2 : (keysOf ((acc ++ [e]) ++ t)).Nodup := by
      have : (acc ++ [e]) ++ t = acc ++ e :: t := by simp
      rw [this]
      exact h
    rw [ih (acc ++ [e]) hn2]
    simp

theorem goodName_parts (l : List Char) (h : goodName l = true) :
    l ≠ [] ∧ '\n' ∉ l ∧ l.any isLineTerm = false ∧ noCS l = true
      ∧ (∀ c, l.head? = some c → isWS c = false)
      ∧ (∀ c, l.getLast? = some c → isWS c = false) := by
  simp only [goodName, Bool.and_eq_true] at h
  obtain ⟨⟨⟨⟨h1, h2⟩, h3⟩, h4⟩, h5⟩ := h
  have h2f : l.any isLineTerm = false := by
    cases hb : l.any isLineTerm
    · rfl
    · rw [hb] at h2
      simp at h2
  refine ⟨?_, ?_, h2f, h3, ?_, ?_⟩
  · intro he
    subst he
    simp at h1
  · intro hm
    have : l.any isLineTerm = true :=
      List.any_eq_true.mpr ⟨'\n', hm, by decide⟩
    rw [this] at h2f
    exact absurd h2f (by simp)
  · intro c hc
    rw [hc] at h4
    simpa using h4
  · intro c hc
    rw [hc] at h5
    simpa using h5

theorem entryLine_eq (products : List Product) (e : String × Int) (p : Product)
    (hfind : products.find? (fun x => x.id == e.1) = some p)
    (hpos : 0 < e.2) :
    entryLine products e = natRepr e.2.toNat ++ 'x' :: ' ' :: p.name.toList := by
  unfold entryLine intRepr nameOf
  rw [hfind, if_neg (by omega)]

theorem line_facts (q : Nat) (name : List Char)
    (hne : name ≠ []) (hnl : '\n' ∉ name) (hcs : noCS name = true) :
    ('\n' ∉ natRepr q ++ 'x' :: ' ' :: name)
      ∧ noCS (natRepr q ++ 'x' :: ' ' :: name) = true
      ∧ natRepr q ++ 'x' :: ' ' :: name ≠ [] := by
  refine ⟨?_, ?_, ?_⟩
  · intro hm
    rcases List.mem_append.mp hm with hm | hm
    · exact absurd (natRepr_all_digits q _ hm) (by decide)
    · simp only [List.mem_cons] at hm
      rcases hm with hm | hm | hm
      · exact absurd hm (by decide)
      · exact absurd hm (by decide)
      · exact hnl hm
  · have hsplit : natRepr q ++ 'x' :: ' ' :: name
        = (natRepr q ++ ['x', ' ']) ++ name := by simp
    rw [hsplit]
    apply noCS_append
    · intro hm
      rcases List.mem_append.mp hm with hm | hm
      · exact absurd (natRepr_all_digits q _ hm) (by decide)
      · simp only [List.mem_cons] at hm
        rcases hm with hm | hm | hm
        · exact absurd hm (by decide)
        · exact absurd hm (by decide)
        · simp at hm
    · exact hcs
  · intro he
    exact natRepr_ne_nil q (List.append_eq_nil.mp he).1

theorem parse_step_eq (products : List Product) (m : List (String × Int))
    (e : String × Int) (p : Product)
    (hfind : products.find? (fun x => x.id == e.1) = some p)
    (hnames : (products.map Product.name).Nodup)
    (hgood : goodName p.name.toList = true)
    (hpos : 0 < e.2) :
    parseStep products m (entryLine products e) = setKey m e.1 e.2 := by
  obtain ⟨hne, hnl, hlt, hcs, hw1, hw2⟩ := goodName_parts _ hgood
  have hpmem : p ∈ products := List.mem_of_find?_eq_some hfind
  have hpid : p.id = e.1 := by
    have := List.find?_some hfind
    exact eq_of_beq this
  unfold parseStep
  rw [entryLine_eq products e p hfind hpos,
    matchLine_entry e.2.toNat p.name.toList hne hw1 hlt]
  simp only [trimList_eq_self p.name.toList hw1 hw2,
    find?_by_name products p hnames hpmem, hpid,
    Int.toNat_of_nonneg (le_of_lt hpos)]

/-- C8 amended: the round trip from a cart through the itemized lines of
the confirmation message back to a quantity mapping reproduces the cart
exactly, provided the catalog has pairwise distinct ids and pairwise
distinct names, every catalog name is nonempty with no line terminator
(LF, CR, U+2028, U+2029), no comma followed by a space, and no leading
or trailing ECMAScript whitespace, every cart key names a catalog
product, the cart keys are distinct and every cart quantity is positive
(all of which hold for carts built by the workflow against such a
catalog). -/
theorem c8_roundtrip (products : List Product) (cart : List (String × Int))
    (hids : (products.map Product.id).Nodup)
    (hnames : (products.map Product.name).Nodup)
    (hgood : ∀ p ∈ products, goodName p.name.toList = true)
    (hcart : ∀ e ∈ cart, ∃ p ∈ products, p.id = e.1)
    (hkeys : (keysOf cart).Nodup)
    (hpos : ∀ e ∈ cart, 0 < e.2) :
    startEditingItems (itemsSummary products cart) products = cart := by
  have hprod : ∀ e ∈ cart, ∃ p, products.find? (fun x => x.id == e.1) = some p
      ∧ p ∈ products ∧ p.id = e.1 := by
    intro e he
    obtain ⟨p, hpmem, hpid⟩ := hcart e he
    refine ⟨p, ?_, hpmem, hpid⟩
    have := find?_by_id products p hids hpmem
    rw [hpid] at this
    exact this
  cases cart with
  | nil => rfl
  | cons e0 rest0 =>
    have hlinefacts : ∀ l ∈ (e0 :: rest0).map (entryLine products),
        '\n' ∉ l ∧ noCS l = true := by
      intro l hl
      obtain ⟨e, he, rfl⟩ := List.mem_map.mp hl
      obtain ⟨p, hfind, hpmem, hpid⟩ := hprod e he
      obtain ⟨hne, hnl, hlt, hcs, hw1, hw2⟩ := goodName_parts _ (hgood p hpmem)
      rw [entryLine_eq products e p hfind (hpos e he)]
      have hf := line_facts e.2.toNat p.name.toList hne hnl hcs
      exact ⟨hf.1, hf.2.1⟩
    have hlinene : ∀ l ∈ (e0 :: rest0).map (entryLine products), l ≠ [] := by
      intro l hl
      obtain ⟨e, he, rfl⟩ := List.mem_map.mp hl
      obtain ⟨p, hfind, hpmem, hpid⟩ := hprod e he
      obtain ⟨hne, hnl, hlt, hcs, hw1, hw2⟩ := goodName_parts _ (hgood p hpmem)
      rw [entryLine_eq products e p hfind (hpos e he)]
      exact (line_facts e.2.toNat p.name.toList hne hnl hcs).2.2
    have hsum : (itemsSummary products (e0 :: rest0)).toList
        = joinLines ((e0 :: rest0).map (entryLine products)) := rfl
    unfold startEditingItems
    rw [hsum, splitSeps_joinLines _ hlinefacts (by simp),
      List.filter_eq_self.mpr (fun a ha => by simpa using hlinene a ha),
      List.foldl_map,
      foldl_congr_mem _ (fun m e => setKey m e.1 e.2) (e0 :: rest0) []
        (fun m e he => by
          obtain ⟨p, hfind, hpmem, hpid⟩ := hprod e he
          exact parse_step_eq products m e p hfind hnames (hgood p hpmem)
            (hpos e he))]
    have hfold := foldl_setKey (e0 :: rest0) [] (by simpa [keysOf] using hkeys)
    simpa using hfold

theorem c8_roundtrip_witness :
    ((([⟨"A", "Bolo", 5, none, none⟩, ⟨"B", "Quiche", 3, none, none⟩]
          : List Product).map Product.id).Nodup
      ∧ (([⟨"A", "Bolo", 5, none, none⟩, ⟨"B", "Quiche", 3, none, none⟩]
          : List Product).map Product.name).Nodup
      ∧ (∀ p ∈ ([⟨"A", "Bolo", 5, none, none⟩, ⟨"B", "Quiche", 3, none, none⟩]
          : List Product), goodName p.name.toList = true)
      ∧ (∀ e ∈ ([("A", 2), ("B", 1)] : List (String × Int)),
          ∃ p ∈ ([⟨"A", "Bolo", 5, none, none⟩, ⟨"B", "Quiche", 3, none, none⟩]
            : List Product), p.id = e.1)
      ∧ (keysOf [("A", 2), ("B", 1)]).Nodup
      ∧ (∀ e ∈ ([("A", 2), ("B", 1)] : List (String × Int)), 0 < e.2))
    ∧ startEditingItems
        (itemsSummary [⟨"A", "Bolo", 5, none, none⟩, ⟨"B", "Quiche", 3, none, none⟩]
          [("A", 2), ("B", 1)])
        [⟨"A", "Bolo", 5, none, none⟩, ⟨"B", "Quiche", 3, none, none⟩]
      = [("A", 2), ("B", 1)] :=
  ⟨⟨by decide, by decide, by decide, by decide, by decide, by decide⟩,
    c8_roundtrip _ _ (by decide) (by decide) (by decide) (by decide)
      (by decide) (by decide)⟩
